import Mathlib

/-!
Shallow embedding of the geometric sampling and placement subsystem of the
bridgeview repository (`src/treegrow.py`, `src/render/render.py`,
`src/helpers.py`).

Coordinates are modelled over an arbitrary linear ordered commutative ring
`α` in place of the source's floating-point numbers (so every theorem holds
in particular over `ℚ` and `ℝ`, and concrete runs can be evaluated over
`ℤ`); the bounding-sphere geometry, which needs square roots, is modelled
over `ℝ`.  Calls into the scene graph (`bpy`) are outside the embedded
core: object duplication and transform assignment are represented by the
pure data the source computes and applies.  Random draws
(`np.random.uniform`, `np.random.binomial`, ...) are modelled as explicit
streams of values consumed by the functions that draw them, and unbounded
rejection-sampling recursions are modelled by exhausting such a stream
(`Option`-valued: `none` means the loop has not yet accepted).
-/

namespace Bridgeview

/-- A point in world coordinates (the source's 3-element numpy arrays /
`mathutils.Vector`s). -/
structure Pt (α : Type*) where
  x : α
  y : α
  z : α
deriving DecidableEq, Repr

variable {α : Type*} [LinearOrderedCommRing α]

/-- Squared Euclidean distance between two points.  The source compares
`np.linalg.norm(a - b)` with a nonnegative threshold `c`; over exact
arithmetic this is equivalent to comparing the squared distance with `c^2`. -/
def dist3Sq (p q : Pt α) : α :=
  (p.x - q.x) ^ 2 + (p.y - q.y) ^ 2 + (p.z - q.z) ^ 2

/-- Squared Euclidean distance between the horizontal (x, y) projections of
two points (the source's `np.linalg.norm(location[:2] - other[:2])`). -/
def dist2Sq (p q : Pt α) : α :=
  (p.x - q.x) ^ 2 + (p.y - q.y) ^ 2

/-- `mathutils.kdtree.KDTree.find`: the vertex of the indexed point list
nearest (3-D Euclidean distance) to the query point, deterministic with
first-indexed-wins tie-breaking.  Built by `helpers.landscape_tree` /
`helpers.avoid_tree` from world-space vertices.  Querying an empty index is
undefined in the source (the kd-tree returns `None`); the embedding returns
the query point itself as a junk value in that case. -/
def nearestVertex (l : List (Pt α)) (q : Pt α) : Pt α :=
  match l with
  | [] => q
  | p :: ps =>
    ps.foldl (fun best v => if dist3Sq v q < dist3Sq best q then v else best) p

/-- `BaseTreeGrow._find_height` (src/treegrow.py, lines 48-55): find the
correct height for the tree.  Accepts when
`closest.z - dig < location.z < closest.z` (both strict in the source);
otherwise sets `location.z = closest.z - u` where `u` is the next
`np.random.uniform(0, dig)` draw from the stream, and recurses.  The draw
stream doubles as recursion fuel: `none` means the stream was exhausted
before acceptance. -/
def findHeight (terrain : List (Pt α)) (dig : α) : List α → Pt α → Option (Pt α)
  | [], loc =>
    let cv := nearestVertex terrain loc
    if cv.z - dig < loc.z ∧ loc.z < cv.z then some loc else none
  | u :: rest, loc =>
    let cv := nearestVertex terrain loc
    if cv.z - dig < loc.z ∧ loc.z < cv.z then some loc
    else findHeight terrain dig rest ⟨loc.x, loc.y, cv.z - u⟩

/-- The floor computed by `Render._choose_height` (src/render/render.py,
lines 272-277): the z of the terrain vertex nearest the location, raised to
the configured `camera_floor` when that is present and greater. -/
def cameraFloorOf (terrain : List (Pt α)) (cameraFloor : Option α) (loc : Pt α) : α :=
  let closest := nearestVertex terrain loc
  match cameraFloor with
  | some cf => if closest.z < cf then cf else closest.z
  | none => closest.z

/-- `Render._choose_height` (src/render/render.py, lines 269-284): choose the
camera height above ground for a range clearance `[lo, hi]`.  Accepts when
`floor + lo < location.z < floor + hi` (both strict in the source); otherwise
sets `location.z = floor + u` where `u` is the next
`np.random.uniform(lo, hi)` draw, and recurses.  The draw stream is the
recursion fuel. -/
def chooseHeight (terrain : List (Pt α)) (lo hi : α) (cameraFloor : Option α) :
    List α → Pt α → Option (Pt α)
  | [], loc =>
    let floor := cameraFloorOf terrain cameraFloor loc
    if floor + lo < loc.z ∧ loc.z < floor + hi then some loc else none
  | u :: rest, loc =>
    let floor := cameraFloorOf terrain cameraFloor loc
    if floor + lo < loc.z ∧ loc.z < floor + hi then some loc
    else chooseHeight terrain lo hi cameraFloor rest ⟨loc.x, loc.y, floor + u⟩

/-- The `camera_clearance` configuration option: a list `[lo, hi]` (uniform
range) or a float (lower limit); the option may also be absent (`none` at
the `opts.get` call sites). -/
inductive Clearance (α : Type*) where
  | range (lo hi : α)
  | scalar (c : α)
deriving DecidableEq, Repr

/-- `Render._check_height` (src/render/render.py, lines 286-294): check that
the camera is above ground by more than the scalar clearance.  When the
`camera_clearance` option is absent the conjunction short-circuits and the
function returns `False`. -/
def checkHeight (terrain : List (Pt α)) (clearance : Option α) (loc : Pt α) : Bool :=
  match clearance with
  | some c => decide ((nearestVertex terrain loc).z + c < loc.z)
  | none => false

/-- The rejection loop of `Render.random_camera_sphere` (src/render/render.py,
lines 208-231).  Each iteration of the source's `while True` draws a fresh
candidate location from steps 2-5 (distance, polar angle, azimuth, sphere
geometry); the embedding consumes those candidates, each paired with the
stream of height draws available to `_choose_height`, from a list.  With a
range clearance the candidate is passed to `_choose_height` and the loop
breaks unconditionally; otherwise the candidate is accepted exactly when
`_check_height` holds, and a failing candidate restarts the whole draw. -/
def sampleSphere (terrain : List (Pt α)) (clearance : Option (Clearance α))
    (cameraFloor : Option α) : List (Pt α × List α) → Option (Pt α)
  | [] => none
  | (loc, hdraws) :: rest =>
    match clearance with
    | some (.range lo hi) => chooseHeight terrain lo hi cameraFloor hdraws loc
    | some (.scalar c) =>
      if checkHeight terrain (some c) loc then some loc
      else sampleSphere terrain clearance cameraFloor rest
    | none =>
      if checkHeight terrain none loc then some loc
      else sampleSphere terrain clearance cameraFloor rest

/-- `TreeGrowRandom._found_clearing` (src/treegrow.py, lines 168-182): check
whether any other objects or trees are too close.  The avoidance branch
compares the horizontal distance to the nearest avoid-tree vertex with the
clearance, but only when that vertex sits above the nearest landscape
vertex; the tree branch compares the full 3-D distance between the candidate
location and each already-placed tree's location.  Both `norm < clearance`
comparisons are embedded as squared-distance comparisons, exactly equivalent
for nonnegative clearance. -/
def foundClearing (landTree avoidTree : List (Pt α)) (clearance : α)
    (trees : List (Pt α)) (loc : Pt α) : Bool :=
  let closestLandscape := nearestVertex landTree loc
  let closestAvoid := nearestVertex avoidTree loc
  if closestLandscape.z < closestAvoid.z ∧
      dist2Sq loc closestAvoid < clearance ^ 2 then false
  else trees.all fun t => !decide (dist3Sq loc t < clearance ^ 2)

/-- The candidate loop of `TreeGrowRandom.grow_tree` (src/treegrow.py, lines
138-144): each iteration of the source's `while True` draws
`dist = Exponential(scale)` and `angle = Uniform(0, 2π)` and forms the
horizontal offset `(cos angle, sin angle, 0) * dist`; the embedding consumes
those offsets from a list.  The candidate location is the parent's location
plus the offset, so its z equals the parent's z; it is accepted exactly when
`_found_clearing` holds. -/
def growTreeLoop (landTree avoidTree : List (Pt α)) (clearance : α)
    (trees : List (Pt α)) (parent : Pt α) : List (α × α) → Option (Pt α)
  | [] => none
  | (dx, dy) :: rest =>
    let loc : Pt α := ⟨parent.x + dx, parent.y + dy, parent.z⟩
    if foundClearing landTree avoidTree clearance trees loc then some loc
    else growTreeLoop landTree avoidTree clearance trees parent rest

/-- `TreeGrowRandom.grow_tree` (src/treegrow.py, lines 134-166): find a
cleared candidate location near the parent, then set its z to the running
`_init_height` and resolve the final height with `_find_height`.  The
duplicated scene object is placed at the resolved location (the source
translates a linked duplicate of the parent by `location - parent.location`);
the embedding returns both the accepted (pre-height-resolution) candidate
and the final placed location. -/
def growTree (landTree avoidTree : List (Pt α)) (clearance dig : α)
    (initHeight : α) (trees : List (Pt α)) (parent : Pt α)
    (cands : List (α × α)) (hdraws : List α) : Option (Pt α × Pt α) :=
  match growTreeLoop landTree avoidTree clearance trees parent cands with
  | none => none
  | some loc =>
    match findHeight landTree dig hdraws ⟨loc.x, loc.y, initHeight⟩ with
    | none => none
    | some fin => some (loc, fin)

/-- `TreeGrowRandom.grow_trees` (src/treegrow.py, lines 126-132): grow
`number` trees, each time using the previously grown tree as the parent
(the last element of the source's `seed_tree`), appending each new tree to
the collision set `self.trees`, and carrying the resolved height forward as
the next `_init_height` (line 150).  The per-tree candidate offsets and
height draws are consumed from `script`; the result is the trace of
(accepted candidate, placed location) pairs, in placement order. -/
def growTreesRandom (landTree avoidTree : List (Pt α)) (clearance dig : α) :
    Nat → α → List (Pt α) → Pt α → List (List (α × α) × List α) →
    Option (List (Pt α × Pt α))
  | 0, _, _, _, _ => some []
  | _ + 1, _, _, _, [] => none
  | n + 1, initHeight, trees, parent, (cands, hdraws) :: script =>
    match growTree landTree avoidTree clearance dig initHeight trees parent
        cands hdraws with
    | none => none
    | some (chk, fin) =>
      match growTreesRandom landTree avoidTree clearance dig n fin.z
          (trees ++ [fin]) fin script with
      | none => none
      | some trace => some ((chk, fin) :: trace)

/-- A placement record (one entry of the `locations` lists consumed by
`TreeGrow`): location, rotation and the `fixed` flag. -/
structure PlaceRecord (α : Type*) where
  location : Pt α
  rotation : Pt α
  fixed : Bool
deriving DecidableEq, Repr

/-- A scene instance paired with a record by `TreeGrow.grow_trees`: only its
location and rotation are relevant to the embedding. -/
structure Instance (α : Type*) where
  location : Pt α
  rotation : Pt α
deriving DecidableEq, Repr

/-- The body of `TreeGrow.grow_trees` for one record (src/treegrow.py, lines
88-94): a record whose `fixed` flag is set is left unchanged; otherwise its
z is reset to `_init_height`, the height is resolved by `_find_height`, a
uniformly random yaw is assigned, and the record is marked fixed. -/
def processRecord (terrain : List (Pt α)) (dig initHeight rotDraw : α)
    (hdraws : List α) (r : PlaceRecord α) : Option (PlaceRecord α) :=
  if r.fixed then some r
  else
    match findHeight terrain dig hdraws
        ⟨r.location.x, r.location.y, initHeight⟩ with
    | none => none
    | some l => some { location := l, rotation := ⟨0, 0, rotDraw⟩, fixed := true }

/-- The `zip_longest` loop of `TreeGrow.grow_trees` (src/treegrow.py, lines
78-96): records and existing instances are paired positionally; when the
records run out the loop breaks, leaving the remaining instances untouched;
when the instances run out a new instance is created by duplicating the last
existing one (its state is then overwritten by the record's values, lines
95-96, so every paired instance ends with the record's location and
rotation).  Each processed record consumes one `(rotation draw, height
draws)` entry of `script`. -/
def growPairs (terrain : List (Pt α)) (dig initHeight : α) :
    List (PlaceRecord α) → List (Instance α) → List (α × List α) →
    Option (List (PlaceRecord α) × List (Instance α))
  | [], trees, _ => some ([], trees)
  | _ :: _, _, [] => none
  | r :: rs, trees, (rot, hd) :: script =>
    match processRecord terrain dig initHeight rot hd r with
    | none => none
    | some r' =>
      match growPairs terrain dig initHeight rs trees.tail script with
      | none => none
      | some (rs', ts') =>
        some (r' :: rs', ⟨r'.location, r'.rotation⟩ :: ts')

/-- `TreeGrow.grow_trees` (src/treegrow.py, lines 73-97): `_init_height` is
taken from the first existing instance (line 77, an index error when there
are none, embedded as `none`), then the records are processed positionally
against the instances. -/
def growTrees (terrain : List (Pt α)) (dig : α) (records : List (PlaceRecord α))
    (trees : List (Instance α)) (script : List (α × List α)) :
    Option (List (PlaceRecord α) × List (Instance α)) :=
  match trees with
  | [] => none
  | t0 :: _ => growPairs terrain dig t0.location.z records trees script

/-- The support of `np.random.binomial(number, 1/pieces)` as drawn by
`segment` (src/treegrow.py, line 191): for `pieces = 1` the success
probability is 1 and the draw is always `number`; otherwise the draw is some
integer in `[0, number]`, embedded by clamping the scripted value to that
interval. -/
def binomialDraw (number pieces : Nat) (d : Nat) : Nat :=
  if pieces = 1 then number else min d number

/-- `segment` (src/treegrow.py, lines 185-192): segment a number into pieces
using a binomial distribution — draw `piece = Binomial(number, 1/pieces)`,
append it to the accumulator, and recurse on `number - piece` and
`pieces - 1`; return the accumulator when `pieces = 0`. -/
def segment (draws : List Nat) (number : Nat) : Nat → List Nat → List Nat
  | 0, res => res
  | pieces + 1, res =>
    let piece := binomialDraw number (pieces + 1) (draws.headD 0)
    segment draws.tail (number - piece) pieces (res ++ [piece])

/-- Euclidean distance between two real points (`np.linalg.norm(a - b)`). -/
noncomputable def distR (p q : Pt ℝ) : ℝ :=
  Real.sqrt ((p.x - q.x) ^ 2 + (p.y - q.y) ^ 2 + (p.z - q.z) ^ 2)

/-- A scene object as seen by `BoundingSphere.find`: its 8 local
bound-box corners already transformed into world space (the source's
`x.matrix_world * mathutils.Vector(x.bound_box[i])`; the matrix product is
Scene-Provider territory). -/
structure Obj where
  corners : Fin 8 → Pt ℝ

/-- The `minmax` selector of `BoundingSphere.find` (src/helpers.py, lines
96-102): bit `axis` of `index` chooses max over min, with the choice for
axis 0 flipped by bit 1 of the index (the cyclic corner ordering). -/
def isMax (index : Fin 8) (axis : Fin 3) : Bool :=
  let b := (index.val >>> axis.val) % 2
  let b := if axis.val = 0 then b ^^^ ((index.val >>> 1) % 2) else b
  b = 1

/-- Component `j` of a real point, indexing the three coordinate axes. -/
def axisVal (p : Pt ℝ) : Fin 3 → ℝ
  | 0 => p.x
  | 1 => p.y
  | 2 => p.z

/-- Reduce a list of reals with `max` or `min` (python's builtin `max`/`min`
over a nonempty list; on the empty list the source raises, the embedding
folds from a junk head of 0). -/
def reduceExtreme (takeMax : Bool) (l : List ℝ) : ℝ :=
  l.foldl (fun a b => if takeMax then max a b else min a b) (l.headD 0)

/-- Entry `(i, j)` of the `box` array of `BoundingSphere.find` (src/helpers.py,
lines 105-109): the min or max, as selected by `minmax i j`, over all objects
of axis `j` of world-space corner `i`. -/
def boxCorner (objs : List Obj) (i : Fin 8) (j : Fin 3) : ℝ :=
  reduceExtreme (isMax i j) (objs.map fun o => axisVal (o.corners i) j)

/-- Row `i` of the `box` array as a point: the `i`-th world-space
hull-approximation corner. -/
def hullCorner (objs : List Obj) (i : Fin 8) : Pt ℝ :=
  ⟨boxCorner objs i 0, boxCorner objs i 1, boxCorner objs i 2⟩

/-- The default centre of `BoundingSphere.find` (src/helpers.py, line 110):
`np.sum(box, axis=0) / 8`, the arithmetic mean of the 8 corners. -/
noncomputable def meanCorners (objs : List Obj) : Pt ℝ :=
  ⟨(∑ i : Fin 8, boxCorner objs i 0) / 8,
   (∑ i : Fin 8, boxCorner objs i 1) / 8,
   (∑ i : Fin 8, boxCorner objs i 2) / 8⟩

/-- A bounding sphere (`helpers.BoundingSphere` data). -/
structure Sphere where
  centre : Pt ℝ
  radius : ℝ

/-- `BoundingSphere.find` (src/helpers.py, lines 93-112): the centre is the
mean of the 8 hull corners unless given explicitly; the radius is
`np.max(np.linalg.norm(box - centre, axis=1))`, the largest distance from
the centre to a hull corner. -/
noncomputable def sphereFind (objs : List Obj) (centre : Option (Pt ℝ)) : Sphere :=
  let c := match centre with
    | some c => c
    | none => meanCorners objs
  { centre := c
    radius := Finset.univ.sup' Finset.univ_nonempty
      fun i : Fin 8 => distR (hullCorner objs i) c }

/-- The sphere initialisation in `Render.__init__` (src/render/render.py,
lines 121-125): when the `spheres` option is absent, a default entry holding
`BoundingSphere().find(self.objects)` is substituted. -/
noncomputable def initSpheres (spheres : Option (List Sphere))
    (objects : List Obj) : List Sphere :=
  match spheres with
  | some s => s
  | none => [sphereFind objects none]

/-- The polar-angle choice of `Render.random_camera_sphere`
(src/render/render.py, lines 212-217): `theta = π/2` when `camera_clearance`
is a list or `camera_theta` is absent; otherwise
`theta = Uniform(camera_theta[0], camera_theta[1])`, embedded as
`a + draw * (b - a)` with `draw` the unit-interval uniform sample.  No
branch raises: a scalar clearance with a missing range falls back silently. -/
noncomputable def chooseTheta (clearance : Option (Clearance ℝ))
    (cameraTheta : Option (ℝ × ℝ)) (draw : ℝ) : ℝ :=
  match clearance, cameraTheta with
  | some (.range _ _), _ => Real.pi / 2
  | _, none => Real.pi / 2
  | _, some (a, b) => a + draw * (b - a)

/-! ## Helper lemmas -/

theorem findHeight_some_band (terrain : List (Pt α)) (dig : α) (draws : List α) :
    ∀ loc r : Pt α, findHeight terrain dig draws loc = some r →
      (nearestVertex terrain r).z - dig < r.z ∧ r.z < (nearestVertex terrain r).z := by
  induction draws with
  | nil =>
    intro loc r h
    unfold findHeight at h
    dsimp only at h
    split_ifs at h with hb
    obtain rfl : loc = r := Option.some.inj h
    exact hb
  | cons u rest ih =>
    intro loc r h
    unfold findHeight at h
    dsimp only at h
    split_ifs at h with hb
    · obtain rfl : loc = r := Option.some.inj h
      exact hb
    · exact ih _ _ h

theorem findHeight_some_xy (terrain : List (Pt α)) (dig : α) (draws : List α) :
    ∀ loc r : Pt α, findHeight terrain dig draws loc = some r →
      r.x = loc.x ∧ r.y = loc.y := by
  induction draws with
  | nil =>
    intro loc r h
    unfold findHeight at h
    dsimp only at h
    split_ifs at h
    obtain rfl : loc = r := Option.some.inj h
    exact ⟨rfl, rfl⟩
  | cons u rest ih =>
    intro loc r h
    unfold findHeight at h
    dsimp only at h
    split_ifs at h
    · obtain rfl : loc = r := Option.some.inj h
      exact ⟨rfl, rfl⟩
    · exact ih ⟨loc.x, loc.y, (nearestVertex terrain loc).z - u⟩ r h

theorem findHeight_accepts (terrain : List (Pt α)) (dig : α) (loc : Pt α)
    (hb : (nearestVertex terrain loc).z - dig < loc.z ∧
      loc.z < (nearestVertex terrain loc).z) :
    ∀ draws : List α, findHeight terrain dig draws loc = some loc := by
  intro draws
  cases draws with
  | nil => unfold findHeight; exact if_pos hb
  | cons u rest => unfold findHeight; exact if_pos hb

theorem chooseHeight_some_band (terrain : List (Pt α)) (lo hi : α)
    (cameraFloor : Option α) (draws : List α) :
    ∀ loc r : Pt α, chooseHeight terrain lo hi cameraFloor draws loc = some r →
      cameraFloorOf terrain cameraFloor r + lo < r.z ∧
        r.z < cameraFloorOf terrain cameraFloor r + hi := by
  induction draws with
  | nil =>
    intro loc r h
    unfold chooseHeight at h
    dsimp only at h
    split_ifs at h with hb
    obtain rfl : loc = r := Option.some.inj h
    exact hb
  | cons u rest ih =>
    intro loc r h
    unfold chooseHeight at h
    dsimp only at h
    split_ifs at h with hb
    · obtain rfl : loc = r := Option.some.inj h
      exact hb
    · exact ih _ _ h

theorem chooseHeight_some_xy (terrain : List (Pt α)) (lo hi : α)
    (cameraFloor : Option α) (draws : List α) :
    ∀ loc r : Pt α, chooseHeight terrain lo hi cameraFloor draws loc = some r →
      r.x = loc.x ∧ r.y = loc.y := by
  induction draws with
  | nil =>
    intro loc r h
    unfold chooseHeight at h
    dsimp only at h
    split_ifs at h
    obtain rfl : loc = r := Option.some.inj h
    exact ⟨rfl, rfl⟩
  | cons u rest ih =>
    intro loc r h
    unfold chooseHeight at h
    dsimp only at h
    split_ifs at h
    · obtain rfl : loc = r := Option.some.inj h
      exact ⟨rfl, rfl⟩
    · exact ih ⟨loc.x, loc.y, cameraFloorOf terrain cameraFloor loc + u⟩ r h

/-! ## C1: the range-clearance height-acceptance step -/

/-- C1: in sphere mode with a range clearance `[lo, hi]`, every location
returned by the height-acceptance step (`Render._choose_height`) satisfies
`location.z - floor ∈ [lo, hi]`, where `floor` is the maximum of the z of
the terrain vertex nearest the location and the configured absolute camera
floor when that is greater; the recursion only ever changes `location.z`,
never x or y. -/
theorem chooseHeight_result_in_band (terrain : List (Pt α)) (lo hi : α)
    (cameraFloor : Option α) (draws : List α) (loc r : Pt α)
    (h : chooseHeight terrain lo hi cameraFloor draws loc = some r) :
    (lo ≤ r.z - cameraFloorOf terrain cameraFloor r ∧
      r.z - cameraFloorOf terrain cameraFloor r ≤ hi) ∧
      r.x = loc.x ∧ r.y = loc.y := by
  obtain ⟨h1, h2⟩ := chooseHeight_some_band terrain lo hi cameraFloor draws loc r h
  exact ⟨⟨by linarith, by linarith⟩, chooseHeight_some_xy terrain lo hi cameraFloor draws loc r h⟩

/-- Witness for C1: a concrete accepted run of `_choose_height` with
terrain vertex at z = 0, absolute floor 2 and clearance range [1, 3]. -/
theorem chooseHeight_result_in_band_witness :
    chooseHeight ([⟨0, 0, 0⟩] : List (Pt ℤ)) 1 3 (some 2) [] ⟨0, 0, 4⟩ = some ⟨0, 0, 4⟩ ∧
      ((1 ≤ (⟨0, 0, 4⟩ : Pt ℤ).z - cameraFloorOf [⟨0, 0, 0⟩] (some 2) ⟨0, 0, 4⟩ ∧
        (⟨0, 0, 4⟩ : Pt ℤ).z - cameraFloorOf [⟨0, 0, 0⟩] (some 2) ⟨0, 0, 4⟩ ≤ 3) ∧
        (⟨0, 0, 4⟩ : Pt ℤ).x = (⟨0, 0, 4⟩ : Pt ℤ).x ∧
        (⟨0, 0, 4⟩ : Pt ℤ).y = (⟨0, 0, 4⟩ : Pt ℤ).y) :=
  ⟨by decide,
    chooseHeight_result_in_band [⟨0, 0, 0⟩] 1 3 (some 2) [] ⟨0, 0, 4⟩ ⟨0, 0, 4⟩ (by decide)⟩

/-! ## C2: the scalar-clearance acceptance of the sphere-mode sampler -/

/-- C2: in sphere mode with a scalar clearance `c`, every sample accepted by
the camera-pose rejection loop satisfies
`location.z > nearest_terrain(location).z + c`; a failing candidate restarts
the whole draw (the loop recurses on the remaining candidate stream). -/
theorem sampleSphere_scalar_above_clearance (terrain : List (Pt α)) (c : α)
    (cameraFloor : Option α) (cands : List (Pt α × List α)) (loc : Pt α)
    (h : sampleSphere terrain (some (Clearance.scalar c)) cameraFloor cands = some loc) :
    (nearestVertex terrain loc).z + c < loc.z := by
  induction cands with
  | nil => cases h
  | cons cand rest ih =>
    obtain ⟨cloc, hdraws⟩ := cand
    unfold sampleSphere at h
    dsimp only at h
    split_ifs at h with hc
    · obtain rfl : cloc = loc := Option.some.inj h
      simpa [checkHeight] using hc
    · exact ih h

/-- Witness for C2: a concrete accepted sample with one terrain vertex at
z = 0, scalar clearance 1, and an accepted candidate at z = 5. -/
theorem sampleSphere_scalar_above_clearance_witness :
    sampleSphere ([⟨0, 0, 0⟩] : List (Pt ℤ)) (some (Clearance.scalar 1)) none
        [(⟨0, 0, 5⟩, [])] = some ⟨0, 0, 5⟩ ∧
      (nearestVertex ([⟨0, 0, 0⟩] : List (Pt ℤ)) ⟨0, 0, 5⟩).z + 1 < (⟨0, 0, 5⟩ : Pt ℤ).z :=
  ⟨by decide,
    sampleSphere_scalar_above_clearance [⟨0, 0, 0⟩] 1 none [(⟨0, 0, 5⟩, [])] ⟨0, 0, 5⟩ (by decide)⟩

/-! ## C10: a missing camera_clearance option never accepts -/

/-- C10: when the `camera_clearance` option is absent, `_check_height`
returns `False` for every input location, so the sphere-mode rejection loop
never accepts any candidate pose, whatever candidates it draws (the sampler
never terminates in this configuration). -/
theorem sampleSphere_no_clearance_never_accepts (terrain : List (Pt α))
    (cameraFloor : Option α) :
    (∀ loc : Pt α, checkHeight terrain none loc = false) ∧
      ∀ cands : List (Pt α × List α),
        sampleSphere terrain none cameraFloor cands = none := by
  refine ⟨fun _ => rfl, fun cands => ?_⟩
  induction cands with
  | nil => rfl
  | cons cand rest ih =>
    obtain ⟨cloc, hdraws⟩ := cand
    unfold sampleSphere
    dsimp only
    rw [if_neg]
    · exact ih
    · simp [checkHeight]

/-! ## C5: the terrain-height resolver's acceptance band -/

/-- Counterexample for C5 as stated: with a single terrain vertex at z = 0
and `dig_tolerance = 2`, the input location `(0, 0, 0)` has
`location.z` inside the claimed half-open band `(nearest.z - dig, nearest.z]`
(its z equals `nearest.z`), yet `_find_height` does not return it unchanged:
the source's upper test `location[2] < closest_vertex[2]` is strict, so the
location is redrawn (here to z = -1 with draw 1). -/
theorem findHeight_halfopen_band_cex :
    ((nearestVertex ([⟨0, 0, 0⟩] : List (Pt ℤ)) ⟨0, 0, 0⟩).z - 2 < (⟨0, 0, 0⟩ : Pt ℤ).z ∧
      (⟨0, 0, 0⟩ : Pt ℤ).z ≤ (nearestVertex ([⟨0, 0, 0⟩] : List (Pt ℤ)) ⟨0, 0, 0⟩).z) ∧
      findHeight ([⟨0, 0, 0⟩] : List (Pt ℤ)) 2 [1] ⟨0, 0, 0⟩ ≠ some ⟨0, 0, 0⟩ := by
  decide

/-- C5 (amended): `_find_height` returns its input location unchanged exactly
when `location.z` lies in the open band `(nearest.z - dig, nearest.z)` — both
bounds strict, unlike the claimed half-open band — where `nearest` is the
terrain vertex nearest the full 3-D location (the source queries the k-d tree
with the whole location, not only its (x, y) projection); otherwise it sets
`location.z = nearest.z - Uniform(0, dig)` and recurses until accepted. -/
theorem findHeight_unchanged_iff (terrain : List (Pt α)) (dig : α)
    (draws : List α) (loc : Pt α) :
    findHeight terrain dig draws loc = some loc ↔
      ((nearestVertex terrain loc).z - dig < loc.z ∧
        loc.z < (nearestVertex terrain loc).z) := by
  constructor
  · intro h
    exact findHeight_some_band terrain dig draws loc loc h
  · intro hb
    exact findHeight_accepts terrain dig loc hb draws

/-! ## C6: idempotence of the terrain-height resolver -/

/-- C6: `_find_height` is idempotent on accepted inputs — every location it
returns is accepted unchanged (for any further draw stream) when passed to
`_find_height` again. -/
theorem findHeight_idempotent (terrain : List (Pt α)) (dig : α)
    (draws : List α) (loc r : Pt α)
    (h : findHeight terrain dig draws loc = some r) (draws' : List α) :
    findHeight terrain dig draws' r = some r :=
  findHeight_accepts terrain dig r (findHeight_some_band terrain dig draws loc r h) draws'

/-- Witness for C6: a concrete accepted output (z = -1 after one redraw) is
returned unchanged on a second application with a fresh draw stream. -/
theorem findHeight_idempotent_witness :
    findHeight ([⟨0, 0, 0⟩] : List (Pt ℤ)) 2 [1] ⟨0, 0, 3⟩ = some ⟨0, 0, -1⟩ ∧
      findHeight ([⟨0, 0, 0⟩] : List (Pt ℤ)) 2 [5] ⟨0, 0, -1⟩ = some ⟨0, 0, -1⟩ :=
  ⟨by decide, findHeight_idempotent [⟨0, 0, 0⟩] 2 [1] ⟨0, 0, 3⟩ ⟨0, 0, -1⟩ (by decide) [5]⟩

/-! ## C7: segment splits a count exactly -/

theorem segment_spec (pieces : Nat) (hp : 1 ≤ pieces) :
    ∀ (draws : List Nat) (number : Nat) (res : List Nat),
      (segment draws number pieces res).length = res.length + pieces ∧
      (segment draws number pieces res).sum = res.sum + number := by
  induction pieces with
  | zero => cases hp
  | succ p ih =>
    intro draws number res
    by_cases hp0 : p = 0
    · subst hp0
      unfold segment binomialDraw
      simp [segment]
    · have hp1 : 1 ≤ p := Nat.one_le_iff_ne_zero.mpr hp0
      have hcl : binomialDraw number (p + 1) (draws.headD 0) ≤ number := by
        unfold binomialDraw
        rw [if_neg (by omega)]
        exact min_le_right _ _
      unfold segment
      obtain ⟨hl, hs⟩ := ih hp1 draws.tail
        (number - binomialDraw number (p + 1) (draws.headD 0))
        (res ++ [binomialDraw number (p + 1) (draws.headD 0)])
      constructor
      · rw [hl, List.length_append]
        simp only [List.length_cons, List.length_nil]
        omega
      · rw [hs, List.sum_append]
        simp only [List.sum_cons, List.sum_nil]
        omega

/-- C7: for all `total ≥ 0` and `parts ≥ 1` (totals and parts are naturals,
so every returned entry is non-negative by typing), `segment(total, parts)`
returns a list of exactly `parts` entries whose sum is exactly `total`,
whatever values the binomial draws take within their supports. -/
theorem segment_length_sum (draws : List Nat) (number pieces : Nat)
    (hp : 1 ≤ pieces) :
    (segment draws number pieces []).length = pieces ∧
      (segment draws number pieces []).sum = number := by
  obtain ⟨hl, hs⟩ := segment_spec pieces hp draws number []
  exact ⟨by simpa using hl, by simpa using hs⟩

/-- Witness for C7: splitting 5 into 3 pieces with scripted draws [2, 1]
gives [2, 1, 2], of length 3 and sum 5. -/
theorem segment_length_sum_witness :
    (segment [2, 1] 5 3 []).length = 3 ∧ (segment [2, 1] 5 3 []).sum = 5 :=
  segment_length_sum [2, 1] 5 3 (by decide)

/-! ## C3: scatter-placement clearance -/

theorem foundClearing_true_dist (landTree avoidTree : List (Pt α)) (clearance : α)
    (trees : List (Pt α)) (loc : Pt α)
    (h : foundClearing landTree avoidTree clearance trees loc = true) :
    ∀ t ∈ trees, clearance ^ 2 ≤ dist3Sq loc t := by
  intro t ht
  unfold foundClearing at h
  dsimp only at h
  split_ifs at h
  have h2 := List.all_eq_true.mp h t ht
  simp only [Bool.not_eq_true', decide_eq_false_iff_not, not_lt] at h2
  exact h2

theorem growTreeLoop_some (landTree avoidTree : List (Pt α)) (clearance : α)
    (trees : List (Pt α)) (parent : Pt α) (cands : List (α × α)) (loc : Pt α)
    (h : growTreeLoop landTree avoidTree clearance trees parent cands = some loc) :
    foundClearing landTree avoidTree clearance trees loc = true ∧ loc.z = parent.z := by
  induction cands with
  | nil => cases h
  | cons cand rest ih =>
    obtain ⟨dx, dy⟩ := cand
    unfold growTreeLoop at h
    dsimp only at h
    split_ifs at h with hc
    · obtain rfl : (⟨parent.x + dx, parent.y + dy, parent.z⟩ : Pt α) = loc :=
        Option.some.inj h
      exact ⟨hc, rfl⟩
    · exact ih h

theorem growTree_some (landTree avoidTree : List (Pt α)) (clearance dig initHeight : α)
    (trees : List (Pt α)) (parent : Pt α) (cands : List (α × α)) (hdraws : List α)
    (chk fin : Pt α)
    (h : growTree landTree avoidTree clearance dig initHeight trees parent cands hdraws
      = some (chk, fin)) :
    foundClearing landTree avoidTree clearance trees chk = true ∧
      chk.z = parent.z ∧ fin.x = chk.x ∧ fin.y = chk.y := by
  unfold growTree at h
  cases hl : growTreeLoop landTree avoidTree clearance trees parent cands with
  | none => rw [hl] at h; cases h
  | some loc =>
    rw [hl] at h
    dsimp only at h
    cases hf : findHeight landTree dig hdraws ⟨loc.x, loc.y, initHeight⟩ with
    | none => rw [hf] at h; cases h
    | some fin' =>
      rw [hf] at h
      dsimp only at h
      obtain ⟨rfl, rfl⟩ := Prod.mk.inj (Option.some.inj h)
      obtain ⟨h1, h2⟩ := growTreeLoop_some landTree avoidTree clearance trees parent cands loc hl
      obtain ⟨h3, h4⟩ := findHeight_some_xy landTree dig hdraws ⟨loc.x, loc.y, initHeight⟩ fin' hf
      exact ⟨h1, h2, h3, h4⟩

/-- Counterexample for C3 as stated: a concrete `grow_trees` run (clearance
8, dig tolerance 2, terrain with a low vertex at the origin and a high one
at (10, 0, 8)) places three trees at (0, 0, -1), (10, 0, 7) and (0, 1, -1):
the first and third placed instances are at horizontal distance 1 < 8.  The
source checks the full 3-D distance at the parent's height, not the
horizontal distance, and the final heights are resolved only after the
check, so the claimed pairwise horizontal-clearance invariant fails. -/
theorem growTreesRandom_horizontal_cex :
    growTreesRandom ([⟨0, 0, 0⟩, ⟨10, 0, 8⟩] : List (Pt ℤ)) [⟨0, 0, -1000⟩] 8 2 3 0 []
        ⟨0, 0, 0⟩ [([(0, 0)], [1]), ([(10, 0)], [1]), ([(-10, 1)], [1])]
      = some [(⟨0, 0, 0⟩, ⟨0, 0, -1⟩), (⟨10, 0, -1⟩, ⟨10, 0, 7⟩), (⟨0, 1, 7⟩, ⟨0, 1, -1⟩)] ∧
      ¬ List.Pairwise (fun a b : Pt ℤ × Pt ℤ => (8 : ℤ) ^ 2 ≤ dist2Sq a.2 b.2)
        [(⟨0, 0, 0⟩, ⟨0, 0, -1⟩), (⟨10, 0, -1⟩, ⟨10, 0, 7⟩), (⟨0, 1, 7⟩, ⟨0, 1, -1⟩)] := by
  refine ⟨by decide, ?_⟩
  intro hpw
  have h13 := (List.pairwise_cons.mp hpw).1 (⟨0, 1, 7⟩, ⟨0, 1, -1⟩) (by simp)
  simp only [dist2Sq] at h13
  norm_num at h13

/-- C3 (amended): within one random-scattering `grow_trees` call with
clearance `c ≥ 0`, each accepted candidate — whose z is its parent's z and
whose (x, y) equal the placed instance's (x, y) — is at 3-D distance ≥ `c`
(in squared form) from every instance already in the collision set at its
placement time: from all instances present before the call and from all
instances placed earlier in the same call.  The pairwise *horizontal*
distance bound in the claim does not hold, because the check compares 3-D
distances at the parent's height and the final height is resolved after the
check. -/
theorem growTreesRandom_clearance (landTree avoidTree : List (Pt α))
    (clearance dig : α) (n : Nat) (initHeight : α) (trees : List (Pt α))
    (parent : Pt α) (script : List (List (α × α) × List α))
    (trace : List (Pt α × Pt α)) (_hc : 0 ≤ clearance)
    (h : growTreesRandom landTree avoidTree clearance dig n initHeight trees parent script
      = some trace) :
    (∀ p ∈ trace, ∀ t ∈ trees, clearance ^ 2 ≤ dist3Sq p.1 t) ∧
      List.Pairwise (fun a b => clearance ^ 2 ≤ dist3Sq b.1 a.2) trace ∧
      ∀ p ∈ trace, p.1.x = p.2.x ∧ p.1.y = p.2.y := by
  clear _hc
  induction n generalizing initHeight trees parent script trace with
  | zero =>
    obtain rfl : ([] : List (Pt α × Pt α)) = trace := Option.some.inj h
    exact ⟨by simp, by simp, by simp⟩
  | succ n ih =>
    cases script with
    | nil => cases h
    | cons entry sc =>
      obtain ⟨cands, hdraws⟩ := entry
      unfold growTreesRandom at h
      cases hg : growTree landTree avoidTree clearance dig initHeight trees parent
          cands hdraws with
      | none => rw [hg] at h; cases h
      | some cf =>
        obtain ⟨chk, fin⟩ := cf
        rw [hg] at h
        dsimp only at h
        cases hr : growTreesRandom landTree avoidTree clearance dig n fin.z
            (trees ++ [fin]) fin sc with
        | none => rw [hr] at h; cases h
        | some trace' =>
          rw [hr] at h
          dsimp only at h
          obtain rfl : (chk, fin) :: trace' = trace := Option.some.inj h
          obtain ⟨hcl, hz, hx, hy⟩ :=
            growTree_some landTree avoidTree clearance dig initHeight trees parent
              cands hdraws chk fin hg
          have hdist := foundClearing_true_dist landTree avoidTree clearance trees chk hcl
          obtain ⟨ih1, ih2, ih3⟩ := ih fin.z (trees ++ [fin]) fin sc trace' hr
          refine ⟨?_, ?_, ?_⟩
          · intro p hp t ht
            rcases List.mem_cons.mp hp with rfl | hp'
            · exact hdist t ht
            · exact ih1 p hp' t (List.mem_append_left _ ht)
          · refine List.pairwise_cons.mpr ⟨?_, ih2⟩
            intro b hb
            exact ih1 b hb fin (by simp)
          · intro p hp
            rcases List.mem_cons.mp hp with rfl | hp'
            · exact ⟨hx.symm, hy.symm⟩
            · exact ih3 p hp'

/-- Witness for the amended C3: the concrete three-placement run of the
counterexample satisfies the (3-D, at-check-time) clearance facts. -/
theorem growTreesRandom_clearance_witness :
    (0 : ℤ) ≤ 8 ∧
      ((∀ p ∈ [((⟨0, 0, 0⟩ : Pt ℤ), (⟨0, 0, -1⟩ : Pt ℤ)), (⟨10, 0, -1⟩, ⟨10, 0, 7⟩),
          (⟨0, 1, 7⟩, ⟨0, 1, -1⟩)], ∀ t ∈ ([] : List (Pt ℤ)), (8 : ℤ) ^ 2 ≤ dist3Sq p.1 t) ∧
        List.Pairwise (fun a b => (8 : ℤ) ^ 2 ≤ dist3Sq b.1 a.2)
          [((⟨0, 0, 0⟩ : Pt ℤ), (⟨0, 0, -1⟩ : Pt ℤ)), (⟨10, 0, -1⟩, ⟨10, 0, 7⟩),
            (⟨0, 1, 7⟩, ⟨0, 1, -1⟩)] ∧
        ∀ p ∈ [((⟨0, 0, 0⟩ : Pt ℤ), (⟨0, 0, -1⟩ : Pt ℤ)), (⟨10, 0, -1⟩, ⟨10, 0, 7⟩),
          (⟨0, 1, 7⟩, ⟨0, 1, -1⟩)], p.1.x = p.2.x ∧ p.1.y = p.2.y) :=
  ⟨by decide,
    growTreesRandom_clearance [⟨0, 0, 0⟩, ⟨10, 0, 8⟩] [⟨0, 0, -1000⟩] 8 2 3 0 []
      ⟨0, 0, 0⟩ [([(0, 0)], [1]), ([(10, 0)], [1]), ([(-10, 1)], [1])] _
      (by decide) (by decide)⟩

/-! ## C9: targeted placement and fixed records -/

theorem growPairs_spec (terrain : List (Pt α)) (dig initHeight : α) :
    ∀ (records : List (PlaceRecord α)) (trees : List (Instance α))
      (script : List (α × List α)) (out : List (PlaceRecord α) × List (Instance α)),
      growPairs terrain dig initHeight records trees script = some out →
      (∀ (i : Nat) (r : PlaceRecord α), records[i]? = some r → r.fixed = true →
          out.1[i]? = some r) ∧
        out.2.drop records.length = trees.drop records.length ∧
        ((∀ r ∈ records, r.fixed = true) → out.1 = records) := by
  intro records
  induction records with
  | nil =>
    intro trees script out h
    obtain rfl : (([], trees) : List (PlaceRecord α) × List (Instance α)) = out :=
      Option.some.inj h
    refine ⟨?_, by simp, fun _ => rfl⟩
    intro i r hr
    simp at hr
  | cons r rs ih =>
    intro trees script out h
    cases script with
    | nil => cases h
    | cons e sc =>
      obtain ⟨rot, hd⟩ := e
      unfold growPairs at h
      cases hp : processRecord terrain dig initHeight rot hd r with
      | none => rw [hp] at h; cases h
      | some r' =>
        rw [hp] at h
        dsimp only at h
        cases hg : growPairs terrain dig initHeight rs trees.tail sc with
        | none => rw [hg] at h; cases h
        | some out' =>
          obtain ⟨rs', ts'⟩ := out'
          rw [hg] at h
          dsimp only at h
          obtain rfl : ((r' :: rs', (⟨r'.location, r'.rotation⟩ : Instance α) :: ts') :
              List (PlaceRecord α) × List (Instance α)) = out := Option.some.inj h
          obtain ⟨ih1, ih2, ih3⟩ := ih trees.tail sc (rs', ts') hg
          have hfixed : r.fixed = true → r' = r := by
            intro hfix
            unfold processRecord at hp
            rw [if_pos hfix] at hp
            exact (Option.some.inj hp).symm
          refine ⟨?_, ?_, ?_⟩
          · intro i rr hr hfix
            cases i with
            | zero =>
              simp only [List.getElem?_cons_zero] at hr ⊢
              obtain rfl : r = rr := Option.some.inj hr
              rw [hfixed hfix]
            | succ i =>
              simp only [List.getElem?_cons_succ] at hr ⊢
              exact ih1 i rr hr hfix
          · simp only [List.length_cons, List.drop_succ_cons]
            rw [ih2, ← List.drop_one, List.drop_drop, Nat.add_comm]
          · intro hall
            have h0 : r' = r := hfixed (hall r (List.mem_cons_self r rs))
            have h1 : rs' = rs := ih3 fun rr hrr => hall rr (List.mem_cons_of_mem r hrr)
            rw [h0, h1]

/-- C9: targeted placement (`TreeGrow.grow_trees`) never modifies a target
record whose `fixed` flag is true (it only applies the stored values to the
paired instance), existing instances beyond the end of the target list are
left entirely untouched, and rerunning on fully fixed targets changes no
target record. -/
theorem growTrees_fixed_frame (terrain : List (Pt α)) (dig : α)
    (records : List (PlaceRecord α)) (trees : List (Instance α))
    (script : List (α × List α)) (out : List (PlaceRecord α) × List (Instance α))
    (h : growTrees terrain dig records trees script = some out) :
    (∀ (i : Nat) (r : PlaceRecord α), records[i]? = some r → r.fixed = true →
        out.1[i]? = some r) ∧
      out.2.drop records.length = trees.drop records.length ∧
      ((∀ r ∈ records, r.fixed = true) → out.1 = records) := by
  unfold growTrees at h
  cases trees with
  | nil => cases h
  | cons t0 ts =>
    exact growPairs_spec terrain dig t0.location.z records (t0 :: ts) script out h

/-- Witness for C9: a run over one already-fixed record and one extra
existing instance: the record survives unchanged and the leftover instance
suffix is untouched. -/
theorem growTrees_fixed_frame_witness :
    growTrees ([⟨0, 0, 0⟩] : List (Pt ℤ)) 2 [⟨⟨1, 2, 3⟩, ⟨0, 0, 5⟩, true⟩]
        [⟨⟨9, 9, 9⟩, ⟨0, 0, 0⟩⟩, ⟨⟨7, 7, 7⟩, ⟨0, 0, 1⟩⟩] [(0, [])]
      = some ([⟨⟨1, 2, 3⟩, ⟨0, 0, 5⟩, true⟩],
          [⟨⟨1, 2, 3⟩, ⟨0, 0, 5⟩⟩, ⟨⟨7, 7, 7⟩, ⟨0, 0, 1⟩⟩]) ∧
      (∀ r ∈ ([⟨⟨1, 2, 3⟩, ⟨0, 0, 5⟩, true⟩] : List (PlaceRecord ℤ)), r.fixed = true) ∧
      ([(⟨⟨1, 2, 3⟩, ⟨0, 0, 5⟩, true⟩ : PlaceRecord ℤ)],
          [(⟨⟨1, 2, 3⟩, ⟨0, 0, 5⟩⟩ : Instance ℤ), ⟨⟨7, 7, 7⟩, ⟨0, 0, 1⟩⟩]).1
        = [⟨⟨1, 2, 3⟩, ⟨0, 0, 5⟩, true⟩] :=
  ⟨by decide, by decide,
    (growTrees_fixed_frame [⟨0, 0, 0⟩] 2 [⟨⟨1, 2, 3⟩, ⟨0, 0, 5⟩, true⟩]
      [⟨⟨9, 9, 9⟩, ⟨0, 0, 0⟩⟩, ⟨⟨7, 7, 7⟩, ⟨0, 0, 1⟩⟩] [(0, [])] _ (by decide)).2.2
      (by decide)⟩

/-! ## C4: the bounding sphere covers its corner points -/

theorem distR_comm (p q : Pt ℝ) : distR p q = distR q p := by
  unfold distR
  congr 1
  ring

/-- C4: for every non-empty object set, `BoundingSphere.find` with no
explicit centre returns a centre equal to the arithmetic mean of the 8
constructed world-space corner points and a radius equal to the maximum
Euclidean distance from that centre to the 8 points (the maximum is
attained at some corner and bounds them all); consequently
radius ≥ distance(centre, corner) for all 8 corner points. -/
theorem sphereFind_default_spec (objs : List Obj) (_hne : objs ≠ []) :
    (sphereFind objs none).centre = meanCorners objs ∧
      (∃ i : Fin 8, (sphereFind objs none).radius
        = distR (meanCorners objs) (hullCorner objs i)) ∧
      ∀ i : Fin 8, distR (meanCorners objs) (hullCorner objs i)
        ≤ (sphereFind objs none).radius := by
  clear _hne
  have hrad : (sphereFind objs none).radius
      = Finset.univ.sup' Finset.univ_nonempty
        (fun i : Fin 8 => distR (hullCorner objs i) (meanCorners objs)) := rfl
  refine ⟨rfl, ?_, ?_⟩
  · obtain ⟨i, -, hi⟩ := @Finset.exists_mem_eq_sup' ℝ (Fin 8) _ Finset.univ
      Finset.univ_nonempty
      (fun i : Fin 8 => distR (hullCorner objs i) (meanCorners objs))
    exact ⟨i, by rw [hrad, hi, distR_comm]⟩
  · intro i
    rw [hrad, distR_comm]
    exact Finset.le_sup'
      (fun j : Fin 8 => distR (hullCorner objs j) (meanCorners objs)) (Finset.mem_univ i)

/-- Witness for C4: the singleton object set whose corners all sit at the
origin is non-empty, and the default bounding sphere covers its corners. -/
theorem sphereFind_default_spec_witness :
    ([Obj.mk fun _ => ⟨0, 0, 0⟩] : List Obj) ≠ [] ∧
      ((sphereFind [Obj.mk fun _ => ⟨0, 0, 0⟩] none).centre
          = meanCorners [Obj.mk fun _ => ⟨0, 0, 0⟩] ∧
        (∃ i : Fin 8, (sphereFind [Obj.mk fun _ => ⟨0, 0, 0⟩] none).radius
          = distR (meanCorners [Obj.mk fun _ => ⟨0, 0, 0⟩])
              (hullCorner [Obj.mk fun _ => ⟨0, 0, 0⟩] i)) ∧
        ∀ i : Fin 8, distR (meanCorners [Obj.mk fun _ => ⟨0, 0, 0⟩])
            (hullCorner [Obj.mk fun _ => ⟨0, 0, 0⟩] i)
          ≤ (sphereFind [Obj.mk fun _ => ⟨0, 0, 0⟩] none).radius) :=
  ⟨List.cons_ne_nil _ _,
    sphereFind_default_spec [Obj.mk fun _ => ⟨0, 0, 0⟩] (List.cons_ne_nil _ _)⟩

/-! ## C8: no ConfigurationError is raised -/

/-- Counterexample for C8: with a scalar clearance and no `camera_theta`
configured, the sampler does not fail — the polar angle silently falls back
to π/2 and a pose is still produced — and with no `spheres` configured,
`Render.__init__` silently substitutes a default bounding sphere computed
from the objects.  No `ConfigurationError` exists anywhere in the source. -/
theorem configuration_error_cex :
    chooseTheta (some (Clearance.scalar 1)) none 0 = Real.pi / 2 ∧
      sampleSphere ([⟨0, 0, 0⟩] : List (Pt ℤ)) (some (Clearance.scalar 1)) none
        [(⟨0, 0, 5⟩, [])] = some ⟨0, 0, 5⟩ ∧
      initSpheres none [Obj.mk fun _ => ⟨0, 0, 0⟩]
        = [sphereFind [Obj.mk fun _ => ⟨0, 0, 0⟩] none] :=
  ⟨rfl, by decide, rfl⟩

/-- C8 (amended): the camera-pose sampler never raises a
`ConfigurationError`.  A scalar clearance combined with a missing
`polar_angle_range` silently substitutes the default polar angle π/2, and a
missing sphere configuration is silently replaced in `Render.__init__` by a
default bounding sphere computed from the scene objects, so sphere mode
always has a target. -/
theorem no_configuration_error (c : ℝ) (d : ℝ) (objs : List Obj) :
    chooseTheta (some (Clearance.scalar c)) none d = Real.pi / 2 ∧
      initSpheres none objs = [sphereFind objs none] :=
  ⟨rfl, rfl⟩

end Bridgeview
